import Mathlib

/-!
Shallow embedding of the Brain Dump Categorizer (`Categorizer` object of the
repository's categorizer source file).  Text is modelled as `List Char` /
`String`; JavaScript regular-expression `.test` calls are modelled as
executable boolean functions on the original character list; the category
table is a list of name/definition pairs in source order.
-/

/-- JS `\d` character class. -/
def isJsDigit (c : Char) : Bool := '0' ≤ c && c ≤ '9'

/-- JS `\w` character class (ASCII letters, digits, underscore). -/
def isJsWordChar (c : Char) : Bool :=
  ('a' ≤ c && c ≤ 'z') || ('A' ≤ c && c ≤ 'Z') || isJsDigit c || c = '_'

/-- JS `\s` character class (the whitespace characters relevant here). -/
def isJsSpace (c : Char) : Bool :=
  c = ' ' || c = '\t' || c = '\n' || c = '\r' || c = '\u000B' || c = '\u000C' ||
  c = ' ' || c = ' ' || c = ' ' || c = '﻿'

/-- JS `String.prototype.toLowerCase`, restricted to the character repertoire
used by the categorizer (ASCII plus the Polish diacritics of the table). -/
def charToLower (c : Char) : Char :=
  if 'A' ≤ c && c ≤ 'Z' then Char.ofNat (c.toNat + 32)
  else if c = 'Ą' then 'ą'
  else if c = 'Ć' then 'ć'
  else if c = 'Ę' then 'ę'
  else if c = 'Ł' then 'ł'
  else if c = 'Ń' then 'ń'
  else if c = 'Ó' then 'ó'
  else if c = 'Ś' then 'ś'
  else if c = 'Ź' then 'ź'
  else if c = 'Ż' then 'ż'
  else c

/-- JS `toLowerCase` on strings. -/
def jsToLower (s : String) : String := ⟨s.data.map charToLower⟩

/-- JS `String.prototype.trim`: drop whitespace from both ends. -/
def jsTrim (l : List Char) : List Char :=
  ((l.dropWhile isJsSpace).reverse.dropWhile isJsSpace).reverse

/-- Does some suffix of the list satisfy the predicate?  This models regex
search semantics: a `.test` succeeds iff the body matches at some start
position. -/
def anySuffix (p : List Char → Bool) : List Char → Bool
  | [] => p []
  | c :: t => p (c :: t) || anySuffix p t

/-- JS `String.prototype.includes`: substring occurrence. -/
def jsIncludes (hay needle : List Char) : Bool :=
  anySuffix (fun t => needle.isPrefixOf t) hay

/-- Does the predicate hold just after some line terminator? -/
def afterNewlines (p : List Char → Bool) : List Char → Bool
  | [] => false
  | c :: t =>
    ((c = '\n' || c = '\r' || c = ' ' || c = ' ') && p t) || afterNewlines p t

/-- Multiline `^` anchor: the body may match at the start of the string or just
after a line terminator. -/
def multilineAt (p : List Char → Bool) (l : List Char) : Bool := p l || afterNewlines p l

/-- Case-insensitive substring test against a lowercase pattern string. -/
def ciContains (l : List Char) (pat : String) : Bool :=
  jsIncludes (l.map charToLower) pat.data

/-- Case-insensitive prefix test (a `^`-anchored case-insensitive literal). -/
def ciStarts (l : List Char) (pat : String) : Bool :=
  pat.data.isPrefixOf (l.map charToLower)

/-! Pattern functions, one per regex literal of the category table. -/

/-- Regex `^[-•\*]\s` with the multiline flag. -/
def patBullet (l : List Char) : Bool :=
  multilineAt (fun t =>
    match t with
    | c1 :: c2 :: _ => (c1 = '-' || c1 = '•' || c1 = '*') && isJsSpace c2
    | _ => false) l

/-- Body of regex `^\d+[\.\)]\s` at one line start. -/
def numberedLineBody (t : List Char) : Bool :=
  (!(t.takeWhile isJsDigit).isEmpty) &&
    (match t.dropWhile isJsDigit with
     | c1 :: c2 :: _ => (c1 = '.' || c1 = ')') && isJsSpace c2
     | _ => false)

/-- Regex `^\d+[\.\)]\s` with the multiline flag. -/
def patNumbered (l : List Char) : Bool := multilineAt numberedLineBody l

/-- Regex `do zrobienia` with the ignore-case flag. -/
def patDoZrobienia (l : List Char) : Bool := ciContains l "do zrobienia"

/-- Regex `lista` with the ignore-case flag. -/
def patLista (l : List Char) : Bool := ciContains l "lista"

/-- Regex `^co (jeśli|gdyby)` with the ignore-case flag. -/
def patCoJesliStart (l : List Char) : Bool := ciStarts l "co jeśli" || ciStarts l "co gdyby"

/-- Regex `^a (może|gdyby)` with the ignore-case flag. -/
def patAMozeStart (l : List Char) : Bool := ciStarts l "a może" || ciStarts l "a gdyby"

/-- Regex `!`. -/
def patExclaim (l : List Char) : Bool := l.contains '!'

/-- Regex `\?$`. -/
def patQEnd (l : List Char) : Bool := l.getLast? == some '?'

/-- Regex `\?[\.!\s]*$`. -/
def patQTrailEnd (l : List Char) : Bool :=
  (l.reverse.dropWhile (fun c => c = '.' || c = '!' || isJsSpace c)).head? == some '?'

/-- Regex `^(jak|dlaczego|kiedy|gdzie|kto|co|czy)` with the ignore-case flag. -/
def patQuestionStart (l : List Char) : Bool :=
  ["jak", "dlaczego", "kiedy", "gdzie", "kto", "co", "czy"].any (fun w => ciStarts l w)

/-- Regex `@\w+`. -/
def patAtWord (l : List Char) : Bool :=
  anySuffix (fun t =>
    match t with
    | '@' :: c :: _ => isJsWordChar c
    | _ => false) l

/-- Regex `deadline` with the ignore-case flag. -/
def patDeadline (l : List Char) : Bool := ciContains l "deadline"

/-- Regex `ASAP` with the ignore-case flag. -/
def patAsap (l : List Char) : Bool := ciContains l "asap"

/-- Body of the currency-amount regexes at one position: a digit, optional
whitespace, then one of the currency alternatives (case-insensitively).
Because `\d+` may end at its last digit, existence of a match is equivalent to
this body holding at some suffix. -/
def amountAfterDigit (alts : List String) (t : List Char) : Bool :=
  match t with
  | c :: rest =>
    isJsDigit c &&
      alts.any (fun a => a.data.isPrefixOf ((rest.dropWhile isJsSpace).map charToLower))
  | [] => false

/-- Regex `\d+\s*(zł|pln|€|\$)` with the ignore-case flag. -/
def patAmountCurrency (l : List Char) : Bool :=
  anySuffix (amountAfterDigit ["zł", "pln", "€", "$"]) l

/-- Regex `\d+\s*(zł|pln|€|\$|tys)` with the ignore-case flag. -/
def patAmountCurrencyTys (l : List Char) : Bool :=
  anySuffix (amountAfterDigit ["zł", "pln", "€", "$", "tys"]) l

/-- Regex `kupić` with the ignore-case flag. -/
def patKupic (l : List Char) : Bool := ciContains l "kupić"

/-- Regex `\d{1,2}[\.\/\-]\d{1,2}`: a match exists iff a digit, a separator
and a digit occur consecutively somewhere. -/
def patDateSep (l : List Char) : Bool :=
  anySuffix (fun t =>
    match t with
    | a :: b :: c :: _ => isJsDigit a && (b = '.' || b = '/' || b = '-') && isJsDigit c
    | _ => false) l

/-- Body of regex `o\s+\d{1,2}:\d{2}` at one position. -/
def clockBody (t : List Char) : Bool :=
  match t with
  | 'o' :: rest =>
    (!(rest.takeWhile isJsSpace).isEmpty) &&
      (let r2 := rest.dropWhile isJsSpace
       let n := (r2.takeWhile isJsDigit).length
       (n = 1 || n = 2) &&
         (match r2.dropWhile isJsDigit with
          | ':' :: d1 :: d2 :: _ => isJsDigit d1 && isJsDigit d2
          | _ => false))
  | _ => false

/-- Regex `o\s+\d{1,2}:\d{2}`. -/
def patClockTime (l : List Char) : Bool := anySuffix clockBody l

/-- Regex `(poniedziałek|wtorek|środa|czwartek|piątek|sobota|niedziela)` with
the ignore-case flag. -/
def patDayName (l : List Char) : Bool :=
  ["poniedziałek", "wtorek", "środa", "czwartek", "piątek", "sobota",
   "niedziela"].any (fun w => ciContains l w)

/-- Regex `(styczeń|luty|marzec|kwiecień|maj|czerwiec|lipiec|sierpień|wrzesień|październik|listopad|grudzień)`
with the ignore-case flag. -/
def patMonthName (l : List Char) : Bool :=
  ["styczeń", "luty", "marzec", "kwiecień", "maj", "czerwiec", "lipiec",
   "sierpień", "wrzesień", "październik", "listopad", "grudzień"].any
    (fun w => ciContains l w)

/-- Regex `^["„"]` (the class holds the ASCII quote twice and `„`). -/
def patQuoteStart (l : List Char) : Bool :=
  match l with
  | c :: _ => c = '"' || c = '„'
  | [] => false

/-- Regex `[""]$` (the class is two ASCII quotes, so: ends with a quote). -/
def patQuoteEnd (l : List Char) : Bool := l.getLast? == some '"'

/-- Consume exactly three digits, returning the rest on success. -/
def takeThreeDigits (t : List Char) : Option (List Char) :=
  match t with
  | a :: b :: c :: r => if isJsDigit a && isJsDigit b && isJsDigit c then some r else none
  | _ => none

/-- Consume an optional `[\s\-]` separator. -/
def skipOptSep (t : List Char) : List Char :=
  match t with
  | c :: r => if isJsSpace c || c = '-' then r else t
  | [] => []

/-- Body of regex `\d{3}[\s\-]?\d{3}[\s\-]?\d{3}` at one position. -/
def phoneBody (t : List Char) : Bool :=
  match takeThreeDigits t with
  | none => false
  | some r1 =>
    match takeThreeDigits (skipOptSep r1) with
    | none => false
    | some r2 => (takeThreeDigits (skipOptSep r2)).isSome

/-- Regex `\d{3}[\s\-]?\d{3}[\s\-]?\d{3}`. -/
def patPhone (l : List Char) : Bool := anySuffix phoneBody l

/-- After the `@` of regex `\S+@\S+\.\S+`: scan non-whitespace characters for
a dot that is preceded by at least one non-whitespace character (since the
`@`) and followed immediately by a non-whitespace character. -/
def emailTailGo : Bool → List Char → Bool
  | _, [] => false
  | seen, c :: rest =>
    if isJsSpace c then false
    else if c = '.' && seen && (match rest with
                                | r :: _ => !isJsSpace r
                                | [] => false) then true
    else emailTailGo true rest

/-- Body of regex `\S+@\S+\.\S+` anchored at the character before an `@`. -/
def emailBody (t : List Char) : Bool :=
  match t with
  | a :: '@' :: rest => (!isJsSpace a) && emailTailGo false rest
  | _ => false

/-- Regex `\S+@\S+\.\S+`. -/
def patEmail (l : List Char) : Bool := anySuffix emailBody l

/-- One entry of the category table: icon, keyword list, pattern list. -/
structure Category where
  icon : String
  keywords : List String
  patterns : List (List Char → Bool)

namespace Categorizer

/-- The built-in category table, in source order. -/
def categories : List (String × Category) :=
  [("zadanie",
    { icon := "✅"
      keywords := ["zrobić", "kupić", "zadzwonić", "wysłać", "sprawdzić", "naprawić",
                   "umówić", "zapłacić", "oddać", "odebrać", "przygotować", "dokończyć",
                   "todo", "task", "must", "trzeba", "muszę", "należy", "pamiętaj"]
      patterns := [patBullet, patNumbered, patDoZrobienia, patLista] }),
   ("pomysł",
    { icon := "💡"
      keywords := ["pomysł", "idea", "może", "można by", "co jeśli", "a gdyby",
                   "warto by", "fajnie by było", "koncept", "innowacja", "projekt"]
      patterns := [patCoJesliStart, patAMozeStart, patExclaim] }),
   ("pytanie",
    { icon := "❓"
      keywords := ["dlaczego", "jak", "kiedy", "gdzie", "kto", "co", "czy",
                   "który", "ile", "czemu", "po co", "skąd"]
      patterns := [patQEnd, patQTrailEnd, patQuestionStart] }),
   ("praca",
    { icon := "💼"
      keywords := ["spotkanie", "meeting", "deadline", "projekt", "klient", "szef",
                   "zespół", "prezentacja", "raport", "email", "mail", "firma",
                   "biuro", "praca", "zlecenie", "kontrakt", "umowa", "faktura"]
      patterns := [patAtWord, patDeadline, patAsap] }),
   ("zakupy",
    { icon := "🛒"
      keywords := ["kupić", "sklep", "zakupy", "lista zakupów", "zamówić",
                   "cena", "promocja", "rabat", "allegro", "amazon", "olx"]
      patterns := [patAmountCurrency, patKupic] }),
   ("wydarzenie",
    { icon := "📅"
      keywords := ["spotkanie", "wizyta", "urodziny", "rocznica", "impreza",
                   "koncert", "wyjazd", "lot", "rezerwacja", "termin", "data"]
      patterns := [patDateSep, patClockTime, patDayName, patMonthName] }),
   ("notatka",
    { icon := "📝"
      keywords := ["notatka", "zapamiętać", "ważne", "uwaga", "info", "informacja"]
      patterns := [] }),
   ("inspiracja",
    { icon := "✨"
      keywords := ["cytat", "motywacja", "inspiracja", "marzenie", "cel", "sukces",
                   "motto", "życie", "przyszłość", "wizja"]
      patterns := [patQuoteStart, patQuoteEnd] }),
   ("kontakt",
    { icon := "👤"
      keywords := ["telefon", "numer", "adres", "email", "kontakt", "osoba"]
      patterns := [patPhone, patEmail] }),
   ("finanse",
    { icon := "💰"
      keywords := ["pieniądze", "kasa", "przelew", "rachunek", "opłata", "rata",
                   "kredyt", "oszczędności", "budżet", "wydatek", "koszt", "pensja"]
      patterns := [patAmountCurrencyTys] }),
   ("zdrowie",
    { icon := "🏥"
      keywords := ["lekarz", "wizyta", "lek", "tabletki", "recepta", "badanie",
                   "dentysta", "szpital", "zdrowie", "dieta", "trening", "siłownia"]
      patterns := [] })]

end Categorizer

/-- A JavaScript value, as far as the categorizer's guards distinguish them. -/
inductive JSVal where
  | str : String → JSVal
  | num : Int → JSVal
  | bool : Bool → JSVal
  | null : JSVal
  | undefined : JSVal
  | obj : JSVal
deriving DecidableEq

/-- The guard condition of `categorize`: input is a non-empty string
(everything else falls to `!text || typeof text !== 'string'`). -/
def isNonEmptyString : JSVal → Bool
  | .str s => !(s == "")
  | _ => false

/-- The record returned by `categorize`. -/
structure CategorizationResult where
  category : String
  icon : String
  confidence : ℚ
deriving DecidableEq

/-- `text.toLowerCase().trim()` of the source, on the character list. -/
def normalizeOf (s : String) : List Char := jsTrim (s.data.map charToLower)

/-- The score loop of `categorize` for one category: +2 per keyword entry
whose lowering occurs in the normalized text, then +3 per pattern that
matches the original text. -/
def categoryScore (text norm : List Char) (cat : Category) : Nat :=
  cat.patterns.foldl (fun s p => if p text then s + 3 else s)
    (cat.keywords.foldl (fun s k => if jsIncludes norm (jsToLower k).data then s + 2 else s) 0)

/-- The `scores` object: one (name, score) pair per table entry, in order. -/
def scoresWith (t : List (String × Category)) (s : String) : List (String × Nat) :=
  t.map (fun e => (e.1, categoryScore s.data (normalizeOf s) e.2))

/-- One step of the best-category loop: replace only on a strictly greater
score. -/
def selectStep (b e : String × Nat) : String × Nat := if e.2 > b.2 then e else b

/-- The best-category loop, starting from `bestCategory = 'notatka'`,
`bestScore = 0`. -/
def bestWith (t : List (String × Category)) (s : String) : String × Nat :=
  (scoresWith t s).foldl selectStep ("notatka", 0)

/-- `this.categories[name].icon`: first-entry lookup by name. -/
def iconLookup : List (String × Category) → String → String
  | [], _ => ""
  | e :: t, k => if e.1 = k then e.2.icon else iconLookup t k

namespace Categorizer

/-- `categorize`, parametrized by the (possibly mutated) category table. -/
def categorizeWith (t : List (String × Category)) : JSVal → CategorizationResult
  | .str s =>
    if s = "" then ⟨"notatka", "📝", 0⟩
    else ⟨(bestWith t s).1, iconLookup t (bestWith t s).1,
          min (((bestWith t s).2 : ℚ) / 15) 1⟩
  | _ => ⟨"notatka", "📝", 0⟩

/-- `Categorizer.categorize` on the built-in table. -/
def categorize (v : JSVal) : CategorizationResult := categorizeWith categories v

/-- `Categorizer.getAllCategories`: name/icon projection in table order. -/
def getAllCategories : List (String × String) :=
  categories.map (fun e => (e.1, e.2.icon))

/-- `Categorizer.addKeyword`: append the lowered keyword to the named
category's keyword list; leave the table unchanged when the name is absent. -/
def addKeyword : List (String × Category) → String → String → List (String × Category)
  | [], _, _ => []
  | e :: t, c, k =>
    if e.1 = c then
      (e.1, { e.2 with keywords := e.2.keywords ++ [jsToLower k] }) :: t
    else e :: addKeyword t c k

end Categorizer

/-- Fold a sequence of `addKeyword` calls over a table. -/
def applyAdds (t : List (String × Category)) (adds : List (String × String)) :
    List (String × Category) :=
  adds.foldl (fun acc a => Categorizer.addKeyword acc a.1 a.2) t

/-! Tag extraction. -/

/-- State of the scan for `marker + \w+` global matches. -/
inductive FmState where
  | scan : FmState
  | afterMark : FmState
  | inWord : List Char → FmState

/-- Global-match scan for the regexes `#\w+` and `@\w+`: on the marker
character, start collecting word characters; emit each maximal non-empty run,
then resume scanning right after it (JS `lastIndex` semantics). -/
def fmGo (m : Char) : FmState → List Char → List (List Char)
  | .scan, [] => []
  | .afterMark, [] => []
  | .inWord acc, [] => [acc.reverse]
  | .scan, c :: t => if c = m then fmGo m .afterMark t else fmGo m .scan t
  | .afterMark, c :: t =>
    if isJsWordChar c then fmGo m (.inWord [c]) t
    else if c = m then fmGo m .afterMark t
    else fmGo m .scan t
  | .inWord acc, c :: t =>
    if isJsWordChar c then fmGo m (.inWord (c :: acc)) t
    else acc.reverse :: (if c = m then fmGo m .afterMark t else fmGo m .scan t)

/-- All matches of `marker + \w+` in the text, with the marker stripped. -/
def findMarked (m : Char) (l : List Char) : List (List Char) := fmGo m .scan l

/-- Stripped matches, as strings. -/
def tagMatches (m : Char) (s : String) : List String :=
  (findMarked m s.data).map (fun w => String.mk w)

/-- The hashtag matches of the text, marker stripped, in order. -/
def hashTags (s : String) : List String := tagMatches '#' s

/-- The mention matches of the text, marker stripped, in order. -/
def mentionTags (s : String) : List String := tagMatches '@' s

/-- `[...new Set(l)]`: deduplication keeping the first occurrence of each
element, in order. -/
def insertionDedup : List String → List String
  | [] => []
  | x :: xs => x :: (insertionDedup xs).filter (fun y => decide (y ≠ x))

namespace Categorizer

/-- `Categorizer.extractTags` on a string input: hashtag matches, then
mention matches, deduplicated insertion-first. -/
def extractTags (s : String) : List String :=
  insertionDedup (hashTags s ++ mentionTags s)

end Categorizer

/-! JavaScript-level wrappers: `Except` marks the operations that can throw a
TypeError when handed a non-string where the body calls a string method. -/

/-- Did the call complete without throwing? -/
def runsOk {α : Type} : Except String α → Bool
  | .ok _ => true
  | .error _ => false

/-- JS property-key coercion for bracket access. -/
def jsKeyOf : JSVal → String
  | .str s => s
  | .null => "null"
  | .undefined => "undefined"
  | .num n => toString n
  | .bool b => if b then "true" else "false"
  | .obj => "[object Object]"

/-- `categorize` at the JS level: its guard handles every non-string, so no
path throws. -/
def categorizeJS (v : JSVal) : Except String CategorizationResult :=
  .ok (Categorizer.categorize v)

/-- `getAllCategories` at the JS level: no argument, no throwing path. -/
def getAllCategoriesJS : Except String (List (String × String)) :=
  .ok Categorizer.getAllCategories

/-- `extractTags` at the JS level: `text.match(...)` throws a TypeError on
every non-string receiver. -/
def extractTagsJS : JSVal → Except String (List String)
  | .str s => .ok (Categorizer.extractTags s)
  | _ => .error "TypeError"

/-- Property names an object literal inherits from `Object.prototype`.  A
bracket lookup with one of these keys finds the inherited function (or, for
the last entry, the prototype object), all of which are truthy. -/
def protoKeys : List String :=
  ["constructor", "toString", "toLocaleString", "valueOf", "hasOwnProperty",
   "isPrototypeOf", "propertyIsEnumerable", "__defineGetter__",
   "__defineSetter__", "__lookupGetter__", "__lookupSetter__", "__proto__"]

/-- `addKeyword` at the JS level: the category argument is coerced to a
property key.  When the key is an own key of the table, the entry's keyword
array exists and `keyword.toLowerCase()` throws a TypeError unless the
keyword is a string.  When the key is not an own key but names an inherited
`Object.prototype` property, the guard `if (this.categories[category])` is
still truthy and reading `.keywords.push` off the inherited value throws a
TypeError before the keyword is even inspected.  Otherwise the lookup is
undefined (falsy) and the call is a no-op. -/
def addKeywordJS (t : List (String × Category)) (category keyword : JSVal) :
    Except String (List (String × Category)) :=
  if t.any (fun e => e.1 == jsKeyOf category) then
    match keyword with
    | .str s => .ok (Categorizer.addKeyword t (jsKeyOf category) s)
    | _ => .error "TypeError"
  else if jsKeyOf category ∈ protoKeys then .error "TypeError"
  else .ok t

/-- The highest score in a score list (0 for the empty list). -/
def listMax (l : List (String × Nat)) : Nat := l.foldr (fun e m => max e.2 m) 0

/-! Helper lemmas. -/

theorem foldl_if_count {α : Type} (p : α → Bool) (w : ℕ) (l : List α) :
    ∀ init : ℕ,
      l.foldl (fun s a => if p a then s + w else s) init = init + w * l.countP p := by
  induction l with
  | nil => intro init; simp
  | cons a t ih =>
    intro init
    by_cases h : p a
    · simp only [List.foldl_cons, h, if_true, List.countP_cons, ih]
      ring
    · simp only [List.foldl_cons, h, if_false, List.countP_cons, ih]
      simp [h]

theorem listMax_cons (e : String × Nat) (t : List (String × Nat)) :
    listMax (e :: t) = max e.2 (listMax t) := rfl

theorem foldl_selectStep_stay (l : List (String × Nat)) :
    ∀ b : String × Nat, listMax l ≤ b.2 → l.foldl selectStep b = b := by
  induction l with
  | nil => intro b _; rfl
  | cons e t ih =>
    intro b h
    rw [listMax_cons] at h
    have he : e.2 ≤ b.2 := le_trans (le_max_left _ _) h
    have ht : listMax t ≤ b.2 := le_trans (le_max_right _ _) h
    simp only [List.foldl_cons, selectStep]
    rw [if_neg (by omega)]
    exact ih b ht

theorem foldl_selectStep_beat (l : List (String × Nat)) :
    ∀ b : String × Nat, b.2 < listMax l →
      ∃ l₁ e l₂, l = l₁ ++ e :: l₂ ∧ l.foldl selectStep b = e ∧ e.2 = listMax l ∧
        ∀ x ∈ l₁, x.2 < listMax l := by
  induction l with
  | nil => intro b h; simp [listMax] at h
  | cons a t ih =>
    intro b h
    by_cases h1 : listMax t ≤ a.2
    · have hM : listMax (a :: t) = a.2 := by rw [listMax_cons]; exact max_eq_left h1
      have hba : a.2 > b.2 := by rw [hM] at h; exact h
      refine ⟨[], a, t, by simp, ?_, by rw [hM], by simp⟩
      simp only [List.foldl_cons, selectStep, if_pos hba]
      exact foldl_selectStep_stay t a h1
    · push_neg at h1
      have hM : listMax (a :: t) = listMax t := by
        rw [listMax_cons]; exact max_eq_right (le_of_lt h1)
      by_cases h2 : a.2 > b.2
      · obtain ⟨l₁, e, l₂, hl, hf, hmax, hlt⟩ := ih a h1
        refine ⟨a :: l₁, e, l₂, by simp [hl], ?_, by rw [hM]; exact hmax, ?_⟩
        · simp only [List.foldl_cons, selectStep, if_pos h2]
          exact hf
        · intro x hx
          rw [hM]
          rcases List.mem_cons.mp hx with hx | hx
          · rw [hx]; exact h1
          · exact hlt x hx
      · push_neg at h2
        have hb : b.2 < listMax t := by rw [hM] at h; exact h
        obtain ⟨l₁, e, l₂, hl, hf, hmax, hlt⟩ := ih b hb
        refine ⟨a :: l₁, e, l₂, by simp [hl], ?_, by rw [hM]; exact hmax, ?_⟩
        · simp only [List.foldl_cons, selectStep]
          rw [if_neg (by omega)]
          exact hf
        · intro x hx
          rw [hM]
          rcases List.mem_cons.mp hx with hx | hx
          · rw [hx]; exact lt_of_le_of_lt h2 hb
          · exact hlt x hx

theorem foldl_selectStep_mem (l : List (String × Nat)) :
    ∀ b, l.foldl selectStep b = b ∨ l.foldl selectStep b ∈ l := by
  induction l with
  | nil => intro b; left; rfl
  | cons a t ih =>
    intro b
    simp only [List.foldl_cons]
    rcases ih (selectStep b a) with h | h
    · rw [h]
      by_cases hc : a.2 > b.2
      · right; simp [selectStep, hc]
      · left; simp [selectStep, hc]
    · right; exact List.mem_cons_of_mem a h

theorem listMax_eq_zero_of_all_zero (l : List (String × Nat)) :
    (∀ e ∈ l, e.2 = 0) → listMax l = 0 := by
  induction l with
  | nil => intro _; rfl
  | cons a t ih =>
    intro h
    rw [listMax_cons, h a (List.mem_cons_self _ _),
      ih (fun e he => h e (List.mem_cons_of_mem _ he))]
    simp

theorem mem_insertionDedup (l : List String) (x : String) :
    x ∈ insertionDedup l ↔ x ∈ l := by
  induction l with
  | nil => simp [insertionDedup]
  | cons a t ih =>
    simp only [insertionDedup, List.mem_cons, List.mem_filter, ih, decide_eq_true_eq]
    constructor
    · rintro (h | ⟨h, _⟩)
      · exact Or.inl h
      · exact Or.inr h
    · rintro (h | h)
      · exact Or.inl h
      · by_cases hx : x = a
        · exact Or.inl hx
        · exact Or.inr ⟨h, hx⟩

theorem nodup_insertionDedup (l : List String) : (insertionDedup l).Nodup := by
  induction l with
  | nil => simp [insertionDedup]
  | cons a t ih =>
    rw [insertionDedup, List.nodup_cons]
    refine ⟨?_, List.Nodup.filter _ ih⟩
    intro h
    have := (List.mem_filter.mp h).2
    simp at this

theorem insertionDedup_eq_nil_iff (l : List String) :
    insertionDedup l = [] ↔ l = [] := by
  cases l with
  | nil => simp [insertionDedup]
  | cons a t => simp [insertionDedup]

theorem insertionDedup_append (a b : List String) :
    insertionDedup (a ++ b) =
      insertionDedup a ++ (insertionDedup b).filter (fun y => decide (y ∉ a)) := by
  induction a with
  | nil => simp [insertionDedup]
  | cons x a ih =>
    simp only [List.cons_append, insertionDedup, List.append_eq, ih, List.filter_append,
      List.filter_filter]
    congr 2
    congr 1
    funext y
    by_cases hx : y = x <;> by_cases ha : y ∈ a <;> simp [hx, ha, List.mem_cons]

theorem iconLookup_spec (t : List (String × Category)) (k : String) :
    k ∈ t.map Prod.fst → ∃ e, e ∈ t ∧ e.1 = k ∧ iconLookup t k = e.2.icon := by
  induction t with
  | nil => simp
  | cons a t ih =>
    intro h
    by_cases ha : a.1 = k
    · exact ⟨a, List.mem_cons_self _ _, ha, by simp [iconLookup, ha]⟩
    · have hk : k ∈ t.map Prod.fst := by
        rw [List.map_cons] at h
        rcases List.mem_cons.mp h with h1 | h1
        · exact absurd h1.symm ha
        · exact h1
      obtain ⟨e, he, h1, h2⟩ := ih hk
      exact ⟨e, List.mem_cons_of_mem _ he, h1, by rw [iconLookup, if_neg ha]; exact h2⟩

theorem addKeyword_nameIcon (t : List (String × Category)) (c k : String) :
    (Categorizer.addKeyword t c k).map (fun e => (e.1, e.2.icon)) =
      t.map (fun e => (e.1, e.2.icon)) := by
  induction t with
  | nil => rfl
  | cons a t ih =>
    by_cases h : a.1 = c
    · simp [Categorizer.addKeyword, h]
    · simp [Categorizer.addKeyword, h, ih]

theorem applyAdds_nameIcon (adds : List (String × String)) :
    ∀ t, (applyAdds t adds).map (fun e => (e.1, e.2.icon)) =
      t.map (fun e => (e.1, e.2.icon)) := by
  induction adds with
  | nil => intro t; rfl
  | cons ad adds ih =>
    intro t
    simp only [applyAdds, List.foldl_cons]
    exact (ih (Categorizer.addKeyword t ad.1 ad.2)).trans (addKeyword_nameIcon t ad.1 ad.2)

theorem map_fst_of_nameIcon {t t' : List (String × Category)}
    (h : t.map (fun e => (e.1, e.2.icon)) = t'.map (fun e => (e.1, e.2.icon))) :
    t.map Prod.fst = t'.map Prod.fst := by
  have h1 : t.map Prod.fst =
      (t.map (fun e => (e.1, e.2.icon))).map Prod.fst := by
    simp [List.map_map]
  have h2 : t'.map Prod.fst =
      (t'.map (fun e => (e.1, e.2.icon))).map Prod.fst := by
    simp [List.map_map]
  rw [h1, h2, h]

theorem any_fst_beq (t : List (String × Category)) (c : String) :
    t.any (fun e => e.1 == c) = true ↔ c ∈ t.map Prod.fst := by
  simp [List.any_eq_true, List.mem_map]

/-- The winning category's score on the built-in table. -/
def bestScore (s : String) : Nat := (bestWith Categorizer.categories s).2

/-! Claim theorems. -/

/-- C1: for every text, the score `categorize` computes for each category is
2 points per keyword entry whose lowering occurs as a substring of the
lower-cased, trimmed text (one binary hit per entry) plus 3 points per
pattern that matches the original, unnormalized text. -/
theorem scoresWith_counts_c1 (s : String) :
    scoresWith Categorizer.categories s =
      Categorizer.categories.map (fun e =>
        (e.1,
          2 * e.2.keywords.countP (fun k => jsIncludes (normalizeOf s) (jsToLower k).data)
            + 3 * e.2.patterns.countP (fun p => p s.data))) := by
  unfold scoresWith
  apply List.map_congr_left
  intro e _
  show (e.1, categoryScore s.data (normalizeOf s) e.2) = _
  unfold categoryScore
  rw [foldl_if_count, foldl_if_count]
  simp

/-- C2: for every non-empty string whose maximal category score is positive,
`categorize` returns a category whose score is the maximum, and every
category earlier in table order scores strictly less (a later equal score
never replaces an earlier one). -/
theorem categorize_first_max_c2 (s : String) (hne : s ≠ "")
    (hpos : 0 < listMax (scoresWith Categorizer.categories s)) :
    ∃ l₁ e l₂,
      scoresWith Categorizer.categories s = l₁ ++ e :: l₂ ∧
      e.1 = (Categorizer.categorize (JSVal.str s)).category ∧
      e.2 = listMax (scoresWith Categorizer.categories s) ∧
      ∀ x ∈ l₁, x.2 < listMax (scoresWith Categorizer.categories s) := by
  obtain ⟨l₁, e, l₂, hl, hf, hmax, hlt⟩ :=
    foldl_selectStep_beat (scoresWith Categorizer.categories s) ("notatka", 0) hpos
  refine ⟨l₁, e, l₂, hl, ?_, hmax, hlt⟩
  have hc : (Categorizer.categorize (JSVal.str s)).category =
      (bestWith Categorizer.categories s).1 := by
    simp [Categorizer.categorize, Categorizer.categorizeWith, hne]
  rw [hc]
  unfold bestWith
  rw [hf]

theorem categorize_first_max_c2_witness :
    ∃ l₁ e l₂,
      scoresWith Categorizer.categories "ASAP" = l₁ ++ e :: l₂ ∧
      e.1 = (Categorizer.categorize (JSVal.str "ASAP")).category ∧
      e.2 = listMax (scoresWith Categorizer.categories "ASAP") ∧
      ∀ x ∈ l₁, x.2 < listMax (scoresWith Categorizer.categories "ASAP") :=
  categorize_first_max_c2 "ASAP" (by decide) (by decide)

/-- C3: on every input that is not a non-empty string, `categorize` returns
exactly the fallback record and the call completes without throwing. -/
theorem categorize_guard_fallback_c3 (v : JSVal) (h : isNonEmptyString v = false) :
    Categorizer.categorize v = ⟨"notatka", "📝", 0⟩ ∧
      categorizeJS v = Except.ok ⟨"notatka", "📝", 0⟩ := by
  have h1 : Categorizer.categorize v = ⟨"notatka", "📝", 0⟩ := by
    cases v with
    | str s =>
      have hs : s = "" := by
        simp [isNonEmptyString] at h
        exact h
      simp [Categorizer.categorize, Categorizer.categorizeWith, hs]
    | num n => rfl
    | bool b => rfl
    | null => rfl
    | undefined => rfl
    | obj => rfl
  exact ⟨h1, by simp [categorizeJS, h1]⟩

theorem categorize_guard_fallback_c3_witness :
    isNonEmptyString JSVal.null = false ∧
      Categorizer.categorize JSVal.null = ⟨"notatka", "📝", 0⟩ ∧
      categorizeJS JSVal.null = Except.ok ⟨"notatka", "📝", 0⟩ :=
  ⟨rfl, categorize_guard_fallback_c3 JSVal.null rfl⟩

/-- C4 (counterexample): `extractTags` called on `null` throws a TypeError,
since `text.match` is a string method, so not every core operation degrades
safely on every input. -/
theorem extractTagsJS_null_throws_c4 :
    extractTagsJS JSVal.null = Except.error "TypeError" := rfl

/-- C4 (amended): `categorize` and `getAllCategories` never throw on any
input; `extractTags` never throws when its argument is a string; `addKeyword`
never throws when both arguments are strings and the category is not the
name of an inherited `Object.prototype` property; `extractTags` throws on
the non-string `null`; `addKeyword` throws when the category exists but the
keyword is not a string, and also on the all-string call
`addKeyword('toString', 'x')`, where the truthy inherited property passes
the guard and `.keywords.push` is read off `undefined`. -/
theorem coreOps_throw_c4_amended :
    (∀ v : JSVal, runsOk (categorizeJS v) = true) ∧
    runsOk getAllCategoriesJS = true ∧
    (∀ s : String, runsOk (extractTagsJS (JSVal.str s)) = true) ∧
    (∀ (t : List (String × Category)) (c k : String), c ∉ protoKeys →
      runsOk (addKeywordJS t (JSVal.str c) (JSVal.str k)) = true) ∧
    runsOk (extractTagsJS JSVal.null) = false ∧
    runsOk (addKeywordJS Categorizer.categories (JSVal.str "zadanie") JSVal.null) = false ∧
    runsOk (addKeywordJS Categorizer.categories (JSVal.str "toString") (JSVal.str "x")) = false := by
  refine ⟨fun v => rfl, rfl, fun s => rfl, fun t c k hp => ?_, rfl, by decide, by decide⟩
  simp only [addKeywordJS, jsKeyOf]
  by_cases h : t.any (fun e => e.1 == c) = true
  · rw [if_pos h]; rfl
  · rw [if_neg h, if_neg hp]; rfl

theorem coreOps_throw_c4_amended_witness :
    "praca" ∉ protoKeys ∧
      runsOk (addKeywordJS Categorizer.categories (JSVal.str "praca") (JSVal.str "x")) = true :=
  ⟨by decide,
   coreOps_throw_c4_amended.2.2.2.1 Categorizer.categories "praca" "x" (by decide)⟩

/-- C5: for every non-empty string the confidence equals
`min(bestScore / 15, 1)`, and for every input the confidence lies in the
closed interval from 0 to 1. -/
theorem categorize_confidence_c5 :
    (∀ s : String, s ≠ "" →
      (Categorizer.categorize (JSVal.str s)).confidence = min ((bestScore s : ℚ) / 15) 1) ∧
    ∀ v : JSVal, 0 ≤ (Categorizer.categorize v).confidence ∧
      (Categorizer.categorize v).confidence ≤ 1 := by
  constructor
  · intro s h
    simp [Categorizer.categorize, Categorizer.categorizeWith, h, bestScore]
  · have hmin : ∀ n : Nat, 0 ≤ min ((n : ℚ) / 15) 1 ∧ min ((n : ℚ) / 15) 1 ≤ 1 := by
      intro n
      exact ⟨le_min (by positivity) zero_le_one, min_le_right _ _⟩
    intro v
    cases v with
    | str s =>
      by_cases h : s = ""
      · simp [Categorizer.categorize, Categorizer.categorizeWith, h]
      · simp only [Categorizer.categorize, Categorizer.categorizeWith, if_neg h]
        exact hmin _
    | num n => exact ⟨le_refl 0, zero_le_one⟩
    | bool b => exact ⟨le_refl 0, zero_le_one⟩
    | null => exact ⟨le_refl 0, zero_le_one⟩
    | undefined => exact ⟨le_refl 0, zero_le_one⟩
    | obj => exact ⟨le_refl 0, zero_le_one⟩

theorem categorize_confidence_c5_witness :
    (Categorizer.categorize (JSVal.str "ASAP")).confidence = min ((bestScore "ASAP" : ℚ) / 15) 1 ∧
      0 ≤ (Categorizer.categorize JSVal.null).confidence :=
  ⟨categorize_confidence_c5.1 "ASAP" (by decide), (categorize_confidence_c5.2 JSVal.null).1⟩

/-- C6: on a non-empty string for which every category scores 0,
`categorize` returns the fallback category with confidence 0, not the first
table entry. -/
theorem categorize_zero_scores_c6 (s : String) (hne : s ≠ "")
    (hz : ∀ e ∈ scoresWith Categorizer.categories s, e.2 = 0) :
    Categorizer.categorize (JSVal.str s) = ⟨"notatka", "📝", 0⟩ := by
  have hstay : bestWith Categorizer.categories s = ("notatka", 0) := by
    unfold bestWith
    exact foldl_selectStep_stay _ _ (listMax_eq_zero_of_all_zero _ hz).le
  have hicon : iconLookup Categorizer.categories "notatka" = "📝" := by decide
  simp only [Categorizer.categorize, Categorizer.categorizeWith, if_neg hne, hstay, hicon,
    CategorizationResult.mk.injEq]
  norm_num

theorem categorize_zero_scores_c6_witness :
    ("xyzzy" ≠ "" ∧ ∀ e ∈ scoresWith Categorizer.categories "xyzzy", e.2 = 0) ∧
      Categorizer.categorize (JSVal.str "xyzzy") = ⟨"notatka", "📝", 0⟩ :=
  ⟨⟨by decide, by decide⟩, categorize_zero_scores_c6 "xyzzy" (by decide) (by decide)⟩

/-- C7: after any sequence of `addKeyword` calls, the category returned by
`categorize` is a key of the (mutated) table and the returned icon is the
icon stored in that entry. -/
theorem categorize_in_table_c7 (adds : List (String × String)) (v : JSVal) :
    ∃ e, e ∈ applyAdds Categorizer.categories adds ∧
      e.1 = (Categorizer.categorizeWith (applyAdds Categorizer.categories adds) v).category ∧
      e.2.icon = (Categorizer.categorizeWith (applyAdds Categorizer.categories adds) v).icon := by
  set T := applyAdds Categorizer.categories adds with hT
  have hproj : T.map (fun e => (e.1, e.2.icon)) =
      Categorizer.categories.map (fun e => (e.1, e.2.icon)) := applyAdds_nameIcon adds _
  have hfst : T.map Prod.fst = Categorizer.categories.map Prod.fst := map_fst_of_nameIcon hproj
  have hfallback : ∃ e, e ∈ T ∧ e.1 = "notatka" ∧ e.2.icon = "📝" := by
    have hmem : ("notatka", "📝") ∈ T.map (fun e => (e.1, e.2.icon)) := by
      rw [hproj]; decide
    obtain ⟨e, he, heq⟩ := List.mem_map.mp hmem
    exact ⟨e, he, congrArg Prod.fst heq, congrArg Prod.snd heq⟩
  cases v with
  | str s =>
    by_cases hs : s = ""
    · obtain ⟨e, he, h1, h2⟩ := hfallback
      exact ⟨e, he, by simp [Categorizer.categorizeWith, hs, h1],
        by simp [Categorizer.categorizeWith, hs, h2]⟩
    · have hbest : (bestWith T s).1 ∈ T.map Prod.fst := by
        have hb : bestWith T s = (scoresWith T s).foldl selectStep ("notatka", 0) := rfl
        rcases foldl_selectStep_mem (scoresWith T s) ("notatka", 0) with h | h
        · rw [hb, h, hfst]
          decide
        · rw [hb]
          obtain ⟨e0, he0, heq⟩ := List.mem_map.mp h
          rw [← heq]
          exact List.mem_map_of_mem Prod.fst he0
      obtain ⟨e, he, h1, h2⟩ := iconLookup_spec T _ hbest
      refine ⟨e, he, ?_, ?_⟩
      · simpa [Categorizer.categorizeWith, hs] using h1
      · simpa [Categorizer.categorizeWith, hs] using h2.symm
  | num n =>
    obtain ⟨e, he, h1, h2⟩ := hfallback
    exact ⟨e, he, h1, h2⟩
  | bool b =>
    obtain ⟨e, he, h1, h2⟩ := hfallback
    exact ⟨e, he, h1, h2⟩
  | null =>
    obtain ⟨e, he, h1, h2⟩ := hfallback
    exact ⟨e, he, h1, h2⟩
  | undefined =>
    obtain ⟨e, he, h1, h2⟩ := hfallback
    exact ⟨e, he, h1, h2⟩
  | obj =>
    obtain ⟨e, he, h1, h2⟩ := hfallback
    exact ⟨e, he, h1, h2⟩

/-- Frame behaviour of the table update itself: on a present category the
lowered keyword is appended to that entry's keyword list and everything else
is unchanged; on an absent category the table is unchanged. -/
theorem addKeyword_cases (t : List (String × Category)) (c k : String) :
    (c ∉ t.map Prod.fst → Categorizer.addKeyword t c k = t) ∧
    (c ∈ t.map Prod.fst →
      ∃ t₁ e t₂, t = t₁ ++ e :: t₂ ∧ e.1 = c ∧ (∀ x ∈ t₁, x.1 ≠ c) ∧
        Categorizer.addKeyword t c k =
          t₁ ++ (e.1, ⟨e.2.icon, e.2.keywords ++ [jsToLower k], e.2.patterns⟩) :: t₂) := by
  induction t with
  | nil => exact ⟨fun _ => rfl, by simp⟩
  | cons a t ih =>
    constructor
    · intro h
      rw [List.map_cons] at h
      simp only [List.mem_cons] at h
      push_neg at h
      obtain ⟨h1, h2⟩ := h
      simp only [Categorizer.addKeyword]
      rw [if_neg (fun hh => h1 hh.symm), ih.1 h2]
    · intro h
      by_cases ha : a.1 = c
      · refine ⟨[], a, t, by simp, ha, by simp, ?_⟩
        simp only [Categorizer.addKeyword, if_pos ha, List.nil_append]
      · have hc : c ∈ t.map Prod.fst := by
          rw [List.map_cons] at h
          rcases List.mem_cons.mp h with h1 | h1
          · exact absurd h1.symm ha
          · exact h1
        obtain ⟨t₁, e, t₂, hl, he, hne, hadd⟩ := ih.2 hc
        refine ⟨a :: t₁, e, t₂, by simp [hl], he, ?_, ?_⟩
        · intro x hx
          rcases List.mem_cons.mp hx with hx | hx
          · rw [hx]; exact ha
          · exact hne x hx
        · simp only [Categorizer.addKeyword, if_neg ha, hadd, List.cons_append]

/-- C8 (counterexample): `toString` is not a key of the table, yet
`addKeyword('toString', 'x')` throws a TypeError instead of leaving the
table unchanged without error, because the bracket lookup finds the truthy
inherited `Object.prototype.toString`. -/
theorem addKeyword_toString_throws_c8 :
    "toString" ∉ Categorizer.categories.map Prod.fst ∧
      addKeywordJS Categorizer.categories (JSVal.str "toString") (JSVal.str "x") =
        Except.error "TypeError" :=
  ⟨by decide, rfl⟩

/-- C8 (amended): `addKeyword` on a present category appends the lowered
keyword to that entry's keyword list and leaves everything else (entry set,
names, icons, patterns, other keyword lists) unchanged, without an error; on
a category that is neither a table key nor the name of an inherited
`Object.prototype` property it leaves the table unchanged and raises no
error; on an absent category that names an inherited `Object.prototype`
property (such as `toString`) it raises a TypeError, leaving the table
unchanged. -/
theorem addKeyword_frame_c8_amended (t : List (String × Category)) (c k : String) :
    (c ∈ t.map Prod.fst →
      (∃ t₁ e t₂, t = t₁ ++ e :: t₂ ∧ e.1 = c ∧ (∀ x ∈ t₁, x.1 ≠ c) ∧
        Categorizer.addKeyword t c k =
          t₁ ++ (e.1, ⟨e.2.icon, e.2.keywords ++ [jsToLower k], e.2.patterns⟩) :: t₂) ∧
      addKeywordJS t (JSVal.str c) (JSVal.str k) =
        Except.ok (Categorizer.addKeyword t c k)) ∧
    (c ∉ t.map Prod.fst → Categorizer.addKeyword t c k = t) ∧
    (c ∉ t.map Prod.fst → c ∉ protoKeys →
      addKeywordJS t (JSVal.str c) (JSVal.str k) = Except.ok t) ∧
    (c ∉ t.map Prod.fst → c ∈ protoKeys →
      addKeywordJS t (JSVal.str c) (JSVal.str k) = Except.error "TypeError") := by
  have hsplit := addKeyword_cases t c k
  refine ⟨?_, hsplit.1, ?_, ?_⟩
  · intro hmem
    refine ⟨hsplit.2 hmem, ?_⟩
    simp only [addKeywordJS, jsKeyOf]
    rw [if_pos ((any_fst_beq t c).mpr hmem)]
  · intro hmem hp
    simp only [addKeywordJS, jsKeyOf]
    rw [if_neg (fun h => hmem ((any_fst_beq t c).mp h)), if_neg hp]
  · intro hmem hp
    simp only [addKeywordJS, jsKeyOf]
    rw [if_neg (fun h => hmem ((any_fst_beq t c).mp h)), if_pos hp]

theorem addKeyword_frame_c8_amended_witness :
    ((∃ t₁ e t₂, Categorizer.categories = t₁ ++ e :: t₂ ∧ e.1 = "zadanie" ∧
        (∀ x ∈ t₁, x.1 ≠ "zadanie") ∧
        Categorizer.addKeyword Categorizer.categories "zadanie" "ZROBIĆ" =
          t₁ ++ (e.1, ⟨e.2.icon, e.2.keywords ++ [jsToLower "ZROBIĆ"], e.2.patterns⟩) :: t₂) ∧
      addKeywordJS Categorizer.categories (JSVal.str "zadanie") (JSVal.str "ZROBIĆ") =
        Except.ok (Categorizer.addKeyword Categorizer.categories "zadanie" "ZROBIĆ")) ∧
    Categorizer.addKeyword Categorizer.categories "no_such_category" "x" =
      Categorizer.categories ∧
    addKeywordJS Categorizer.categories (JSVal.str "no_such_category") (JSVal.str "x") =
      Except.ok Categorizer.categories ∧
    addKeywordJS Categorizer.categories (JSVal.str "toString") (JSVal.str "x") =
      Except.error "TypeError" :=
  ⟨(addKeyword_frame_c8_amended Categorizer.categories "zadanie" "ZROBIĆ").1 (by decide),
   (addKeyword_frame_c8_amended Categorizer.categories "no_such_category" "x").2.1 (by decide),
   (addKeyword_frame_c8_amended Categorizer.categories "no_such_category" "x").2.2.1
     (by decide) (by decide),
   (addKeyword_frame_c8_amended Categorizer.categories "toString" "x").2.2.2
     (by decide) (by decide)⟩

/-- C9: `extractTags` returns, without duplicates, exactly the
marker-stripped hashtag and mention matches of the text; it is empty
exactly when there is no match of either family; and on
`"check #work @boss now"` it returns the set containing `work` and `boss`. -/
theorem extractTags_spec_c9 :
    (∀ s : String,
      (Categorizer.extractTags s).Nodup ∧
      (∀ x, x ∈ Categorizer.extractTags s ↔ x ∈ hashTags s ++ mentionTags s) ∧
      (Categorizer.extractTags s = [] ↔ hashTags s = [] ∧ mentionTags s = [])) ∧
    Categorizer.extractTags "check #work @boss now" = ["work", "boss"] := by
  constructor
  · intro s
    refine ⟨nodup_insertionDedup _, fun x => mem_insertionDedup _ x, ?_⟩
    show insertionDedup (hashTags s ++ mentionTags s) = [] ↔ _
    rw [insertionDedup_eq_nil_iff, List.append_eq_nil]
  · decide

/-- C10: the order of `extractTags` is deterministic: the hashtag-derived
tags in first-appearance order, followed by the mention-derived tags in
first-appearance order that did not already occur among the hashtag-derived
tags. -/
theorem extractTags_order_c10 (s : String) :
    Categorizer.extractTags s =
      insertionDedup (hashTags s) ++
        (insertionDedup (mentionTags s)).filter (fun y => decide (y ∉ hashTags s)) :=
  insertionDedup_append _ _
